import Mathlib

/-!
# Verification of the SQL dump processor core

Shallow embedding of the dump-processing core of `src/core/sql_dump_processor.py`,
`src/core/parse.py` and `src/core/extract.py`.  Lines of text are modelled as
`List Char`; Python's `False`-or-delimiter `in_string` variable is modelled as
`Option Char`.
-/

/-- The single-quote character (code 39). -/
def qc : Char := Char.ofNat 39

/-- The backtick character (code 96). -/
def btick : Char := Char.ofNat 96

/-- Whitespace in the sense of Python's `str.strip` / `re` class `\s`:
space, tab, newline, carriage return, vertical tab, form feed. -/
def pyIsSpace (c : Char) : Bool :=
  c = ' ' ∨ c = '\t' ∨ c = '\n' ∨ c = '\r' ∨ c = Char.ofNat 11 ∨ c = Char.ofNat 12

/-- Python `str.rstrip()`. -/
def pyRstrip (l : List Char) : List Char :=
  (l.reverse.dropWhile pyIsSpace).reverse

/-- Python `str.strip()`. -/
def pyStrip (l : List Char) : List Char :=
  ((l.dropWhile pyIsSpace).reverse.dropWhile pyIsSpace).reverse

/-- The lexical state threaded between lines by `_restore_to_db`;
`inString` holds the delimiter character while inside a quoted region
(the Python code stores the delimiter char in `in_string`, `False` otherwise). -/
structure ScanState where
  inString : Option Char
  inComment : Bool
  escapeNext : Bool
deriving DecidableEq

/-- The initial lexical state of `_restore_to_db` (all flags off). -/
def initScan : ScanState := ⟨none, false, false⟩

/-- Character loop of `SQLDumpProcessor._process_line`
(`src/core/sql_dump_processor.py` lines 400-441), acting on the already
`rstrip`-ped line.  Returns the cleaned content and the next state.
The state is dispatched in the Python check order: `escape_next` first, then
`in_string`, then `in_comment`, then the default lexical state; the two-char
markers (`--`, block-comment open/close) require a next character, matching
the `i + 1 < len(line)` guards. -/
def scanChars : ScanState → List Char → List Char × ScanState
  | st, [] => ([], st)
  | ⟨is, ic, true⟩, c :: rest =>
    let r := scanChars ⟨is, ic, false⟩ rest
    (c :: r.1, r.2)
  | ⟨some q, ic, false⟩, c :: rest =>
    if c = '\\' then
      let r := scanChars ⟨some q, ic, true⟩ rest
      (c :: r.1, r.2)
    else if c = q then
      let r := scanChars ⟨none, ic, false⟩ rest
      (c :: r.1, r.2)
    else
      let r := scanChars ⟨some q, ic, false⟩ rest
      (c :: r.1, r.2)
  | ⟨none, true, false⟩, c :: rest =>
    match rest with
    | r1 :: rest2 =>
      if c = '*' ∧ r1 = '/' then scanChars ⟨none, false, false⟩ rest2
      else scanChars ⟨none, true, false⟩ (r1 :: rest2)
    | [] => ([], ⟨none, true, false⟩)
  | ⟨none, false, false⟩, c :: rest =>
    match rest with
    | r1 :: rest2 =>
      if c = '-' ∧ r1 = '-' then ([], ⟨none, false, false⟩)
      else if c = '/' ∧ r1 = '*' then scanChars ⟨none, true, false⟩ rest2
      else if c = qc ∨ c = '"' ∨ c = btick then
        let r := scanChars ⟨some c, false, false⟩ (r1 :: rest2)
        (c :: r.1, r.2)
      else
        let r := scanChars ⟨none, false, false⟩ (r1 :: rest2)
        (c :: r.1, r.2)
    | [] =>
      if c = qc ∨ c = '"' ∨ c = btick then ([c], ⟨some c, false, false⟩)
      else ([c], ⟨none, false, false⟩)

/-- `SQLDumpProcessor._process_line`: `rstrip` the raw line, then run the
character loop. -/
def processLine (st : ScanState) (line : List Char) : List Char × ScanState :=
  scanChars st (pyRstrip line)

/-- Python `str.startswith('--')`: the first two characters are dashes. -/
def isCommentStart (l : List Char) : Bool :=
  match l with
  | c1 :: c2 :: _ => c1 = '-' && c2 = '-'
  | _ => false

/-- The emission guard of `_restore_to_db` (lines 201 and 218): a stripped
buffer is executed only when non-empty and not starting with `--`. -/
def emitOf (buf : List Char) : List (List Char) :=
  let s := pyStrip buf
  if s.isEmpty ∨ isCommentStart s then [] else [s]

/-- Statement-assembly loop of `_restore_to_db` (lines 190-220), with the
execution of each statement abstracted away: returns the list of statements
that would be handed to `_execute_sql`, in order.  The buffer receives each
line's cleaned content plus one space; a statement is cut when the cleaned
content contains a terminator and the post-line state is not inside a string;
at end of file the remaining buffer is flushed. -/
def assembleGo : ScanState → List Char → List (List Char) → List (List Char)
  | _, buf, [] => emitOf buf
  | st, buf, l :: rest =>
    let r := processLine st l
    let buf2 := buf ++ r.1 ++ [' ']
    if r.1.contains ';' ∧ r.2.inString = none then
      emitOf buf2 ++ assembleGo r.2 [] rest
    else
      assembleGo r.2 buf2 rest

/-- Statement assembly over a whole dump, starting from the initial state and
an empty buffer. -/
def assemble (lines : List (List Char)) : List (List Char) :=
  assembleGo initScan [] lines

/-- Restore loop of `_restore_to_db` (lines 190-220) with statement execution
modelled by an oracle `runSql : statement → Bool` (`true` = success).  The pair
carried along is `(attempts, executed)`: `attempts` counts calls to
`_execute_sql`, `executed` mirrors the `statements_executed` counter, which is
incremented only after a successful call.  A failed call is skipped when
`skip` is set, otherwise the run aborts (`Except.error`) with the counters at
that point; the end-of-file flush (lines 218-220) is outside the
`try`/`except`, so a failure there aborts regardless of `skip`. -/
def restoreGo (runSql : List Char → Bool) (skip : Bool) :
    ScanState → List Char → Nat → Nat → List (List Char) → Except (Nat × Nat) (Nat × Nat)
  | _, buf, att, exe, [] =>
    let s := pyStrip buf
    if s.isEmpty ∨ isCommentStart s then .ok (att, exe)
    else if runSql s then .ok (att + 1, exe + 1)
    else .error (att + 1, exe)
  | st, buf, att, exe, l :: rest =>
    let r := processLine st l
    let buf2 := buf ++ r.1 ++ [' ']
    if r.1.contains ';' ∧ r.2.inString = none then
      let s := pyStrip buf2
      if s.isEmpty ∨ isCommentStart s then restoreGo runSql skip r.2 [] att exe rest
      else if runSql s then restoreGo runSql skip r.2 [] (att + 1) (exe + 1) rest
      else if skip then restoreGo runSql skip r.2 [] (att + 1) exe rest
      else .error (att + 1, exe)
    else
      restoreGo runSql skip r.2 buf2 att exe rest

/-- A whole restore run over the dump's lines. -/
def restoreRun (runSql : List Char → Bool) (skip : Bool) (lines : List (List Char)) :
    Except (Nat × Nat) (Nat × Nat) :=
  restoreGo runSql skip initScan [] 0 0 lines

instance {ε α : Type} [DecidableEq ε] [DecidableEq α] : DecidableEq (Except ε α) := fun x y =>
  match x, y with
  | .ok a, .ok b =>
    if h : a = b then .isTrue (congrArg Except.ok h)
    else .isFalse fun hc => h (Except.ok.inj hc)
  | .error a, .error b =>
    if h : a = b then .isTrue (congrArg Except.error h)
    else .isFalse fun hc => h (Except.error.inj hc)
  | .ok _, .error _ => .isFalse fun hc => Except.noConfusion hc
  | .error _, .ok _ => .isFalse fun hc => Except.noConfusion hc

/-! ## `core/extract.py`: `extract_table_name` -/

/-- Case-insensitive literal match: drop the pattern `p` from the front of `s`
(comparing via `Char.toUpper`), returning the remainder. -/
def dropPrefixCI : List Char → List Char → Option (List Char)
  | [], s => some s
  | _ :: _, [] => none
  | p :: ps, c :: cs => if p.toUpper = c.toUpper then dropPrefixCI ps cs else none

/-- Regex word character `\w`: letters, digits, underscore. -/
def isWordChar (c : Char) : Bool := c.isAlphanum ∨ c = '_'

/-- The tail `[\x60"]?(\w+)` of the three patterns of `extract_table_name`:
an optional backtick/double-quote, then a non-empty run of word characters,
which is the captured group.  The optional quote is greedy; if consuming it
leaves no word character the regex backtracks to not consuming it, in which
case the quote itself (not a word character) makes the match fail anyway,
so both branches are tried in order. -/
def tryQuoteWord (r : List Char) : Option (List Char) :=
  let branches : List (List Char) :=
    match r with
    | c :: tl => if c = btick ∨ c = '"' then [tl, r] else [r]
    | [] => [r]
  branches.findSome? fun b =>
    let w := b.takeWhile isWordChar
    if w.isEmpty then none else some w

/-- Try one of `extract_table_name`'s patterns at the head of `s`:
the keyword literal (ending in one space), then for the CREATE pattern the
optional greedy `(?:IF NOT EXISTS )?` (tried with the literal first, then
without, as the regex engine backtracks), then the quoted word group. -/
def tryPatternAt (kw : List Char) (allowINE : Bool) (s : List Char) : Option (List Char) :=
  (dropPrefixCI kw s).bind fun r0 =>
    let cands : List (List Char) :=
      (if allowINE then (dropPrefixCI "IF NOT EXISTS ".data r0).toList else []) ++ [r0]
    cands.findSome? tryQuoteWord

/-- `re.search` of one pattern: try to match at every position, left to right. -/
def searchPattern (kw : List Char) (allowINE : Bool) : List Char → Option (List Char)
  | [] => none
  | s@(_ :: tl) => (tryPatternAt kw allowINE s).orElse fun _ => searchPattern kw allowINE tl

/-- `extract_table_name` from `src/core/extract.py`: the three patterns are
tried in order over the whole line; the first match's group 1 (original case)
is the table name. -/
def extractTableName (line : List Char) : Option (List Char) :=
  ((searchPattern "CREATE TABLE ".data true line).orElse fun _ =>
    searchPattern "INSERT INTO ".data false line).orElse fun _ =>
      searchPattern "INSERT IGNORE INTO ".data false line

/-! ## Analyzer: `_analyze_dump` / `_process_line_for_analysis` -/

/-- Python uppercase of a line (ASCII suffices for this dump format). -/
def toUpperLine (l : List Char) : List Char := l.map Char.toUpper

/-- Python's substring test `pat in s` on lists of characters. -/
def substrOf (pat : List Char) : List Char → Bool
  | [] => pat.isEmpty
  | s@(_ :: tl) => pat.isPrefixOf s || substrOf pat tl

/-- The mutable `self.stats['statements']` counters plus the
`self.stats['tables']` dict (an insertion-ordered association list, as Python
dicts preserve insertion order). -/
structure AnalyzeStats where
  createTable : Nat
  insertCount : Nat
  alterCount : Nat
  dropCount : Nat
  otherCount : Nat
  total : Nat
  tables : List (List Char × Nat)
deriving DecidableEq

/-- Fresh statistics (all counters zero, no tables). -/
def initStats : AnalyzeStats := ⟨0, 0, 0, 0, 0, 0, []⟩

/-- `self.stats['tables'][name] = self.stats['tables'].get(name, 0) + 1`:
bump an existing key in place or append a new key at the end. -/
def bumpTable (m : List (List Char × Nat)) (k : List Char) : List (List Char × Nat) :=
  match m with
  | [] => [(k, 1)]
  | (k0, v) :: tl => if k0 = k then (k0, v + 1) :: tl else (k0, v) :: bumpTable tl k

/-- `_process_line_for_analysis` (lines 473-501): skip blank and `--` lines
(after uppercasing and stripping), bump `total`, then classify by substring
search, extracting the table name from the original line for the CREATE and
INSERT kinds. -/
def analyzeLine (st : AnalyzeStats) (line : List Char) : AnalyzeStats :=
  let lu := pyStrip (toUpperLine line)
  if lu.isEmpty ∨ isCommentStart lu then st
  else
    let st := { st with total := st.total + 1 }
    if substrOf "CREATE TABLE".data lu then
      let st := { st with createTable := st.createTable + 1 }
      match extractTableName line with
      | some t => { st with tables := bumpTable st.tables t }
      | none => st
    else if substrOf "INSERT INTO".data lu then
      let st := { st with insertCount := st.insertCount + 1 }
      match extractTableName line with
      | some t => { st with tables := bumpTable st.tables t }
      | none => st
    else if substrOf "ALTER TABLE".data lu then
      { st with alterCount := st.alterCount + 1 }
    else if substrOf "DROP TABLE".data lu then
      { st with dropCount := st.dropCount + 1 }
    else
      { st with otherCount := st.otherCount + 1 }

/-- `_analyze_dump`'s statistics loop over the dump's lines. -/
def analyzeLines (lines : List (List Char)) : AnalyzeStats :=
  lines.foldl analyzeLine initStats

/-! ## Validator: `_validate_dump` (lines 552-584) -/

/-- Python `set.add`: modelled on an insertion-ordered duplicate-free list. -/
def addSet (s : List (List Char)) (k : List Char) : List (List Char) :=
  if k ∈ s then s else s ++ [k]

/-- One line of `_validate_dump`'s loop: the raw line is uppercased (no strip,
no comment skip); a line containing `CREATE TABLE` contributes its extracted
name to `tables_created`, otherwise a line containing `INSERT INTO`
contributes to `tables_referenced`. -/
def validateLine (acc : List (List Char) × List (List Char)) (line : List Char) :
    List (List Char) × List (List Char) :=
  let lu := toUpperLine line
  if substrOf "CREATE TABLE".data lu then
    match extractTableName line with
    | some t => (addSet acc.1 t, acc.2)
    | none => acc
  else if substrOf "INSERT INTO".data lu then
    match extractTableName line with
    | some t => (acc.1, addSet acc.2 t)
    | none => acc
  else acc

/-- The `(tables_created, tables_referenced)` pair after the whole pass. -/
def validateSets (lines : List (List Char)) : List (List Char) × List (List Char) :=
  lines.foldl validateLine ([], [])

/-- `missing_tables = tables_referenced - tables_created`. -/
def missingTables (lines : List (List Char)) : List (List Char) :=
  let s := validateSets lines
  s.2.filter fun t => t ∉ s.1

/-- The issue list printed by `_validate_dump`: one
`Missing CREATE TABLE for: <table>` entry per missing table. -/
def validateErrors (lines : List (List Char)) : List (List Char) :=
  (missingTables lines).map fun t => "Missing CREATE TABLE for: ".data ++ t

/-! ## Extractor: `_extract_table_data` (lines 517-550) and
`parse_values` (`src/core/parse.py`) -/

/-- `parse_values`: split a raw VALUES fragment on commas outside quotes,
dropping quote characters and backslashes, unescaping the following character,
and stripping each piece.  Direct translation of the accumulator loop. -/
def parseValuesGo : List Char → List Char → Bool → Bool → List (List Char) → List (List Char)
  | [], cur, _, _, acc => acc ++ (if cur.isEmpty then [] else [pyStrip cur])
  | c :: rest, cur, inQ, esc, acc =>
    if esc then parseValuesGo rest (cur ++ [c]) inQ false acc
    else if c = '\\' then parseValuesGo rest cur inQ true acc
    else if c = qc ∨ c = '"' then parseValuesGo rest cur (!inQ) false acc
    else if c = ',' ∧ !inQ then parseValuesGo rest [] inQ false (acc ++ [pyStrip cur])
    else parseValuesGo rest (cur ++ [c]) inQ false acc

/-- `parse_values(values_str)`. -/
def parseValues (s : List Char) : List (List Char) :=
  parseValuesGo s [] false false []

/-- Lazy group `(.*?)(?=\x5c);|$)` of the extractor's INSERT regex: capture the
shortest prefix whose remainder starts with `);`, or (without MULTILINE) ends
the string, a final newline counting as end. -/
def lazyCapture : List Char → List Char
  | [] => []
  | c :: rest =>
    if c = ')' ∧ rest.head? = some ';' then []
    else if rest.isEmpty ∧ c = '\n' then []
    else c :: lazyCapture rest

/-- Optionally drop one leading backtick (the greedy `\x60?` of the pattern;
a kept backtick can never match the following literal, so greedy consumption
is equivalent to backtracking). -/
def dropOptBtick (s : List Char) : List Char :=
  match s with
  | c :: tl => if c = btick then tl else s
  | [] => s

/-- Match the extractor's regex
`INSERT INTO \x60?t\x60?\s*\(([^)]+)\)\s*VALUES\s*(.*?)(?=\);|$)`
at the head of `s` (IGNORECASE, DOTALL): returns the column-list capture, the
VALUES capture and the remainder of the text after the match. -/
def matchInsertAt (table : List Char) (s : List Char) : Option (List Char × List Char × List Char) :=
  (dropPrefixCI "INSERT INTO ".data s).bind fun r0 =>
    (dropPrefixCI table (dropOptBtick r0)).bind fun r1 =>
      let r2 := (dropOptBtick r1).dropWhile pyIsSpace
      match r2 with
      | '(' :: r3 =>
        let cols := r3.takeWhile (· ≠ ')')
        if cols.isEmpty then none
        else
          match r3.dropWhile (· ≠ ')') with
          | ')' :: r4 =>
            (dropPrefixCI "VALUES".data (r4.dropWhile pyIsSpace)).bind fun r5 =>
              let r6 := r5.dropWhile pyIsSpace
              let vals := lazyCapture r6
              some (cols, vals, r6.drop vals.length)
          | _ => none
      | _ => none

/-- `insert_pattern.findall(line)`: scan left to right, resuming after each
match; the fuel argument (`line.length + 1` at the top call) bounds the scan. -/
def findAllInsert (table : List Char) : Nat → List Char → List (List Char × List Char)
  | 0, _ => []
  | _ + 1, [] => []
  | fuel + 1, s@(_ :: tl) =>
    match matchInsertAt table s with
    | some (cols, vals, rest) => (cols, vals) :: findAllInsert table fuel rest
    | none => findAllInsert table fuel tl

/-- Column-list parsing of `_extract_table_data` line 535:
`[col.strip().strip('\x60"') for col in cols.split(',')]`. -/
def parseColumns (cols : List Char) : List (List Char) :=
  (cols.splitOn ',').map fun c =>
    (((pyStrip c).dropWhile fun x => x = btick ∨ x = '"').reverse.dropWhile
      (fun x => x = btick ∨ x = '"')).reverse

/-- Row loop of `_extract_table_data` (lines 530-545): for each line that
contains `INSERT INTO` (uppercased) and the raw table name, run the regex;
from the first match take the column list; each match whose parsed value list
has the same arity as the columns yields one CSV row (column/value pairs);
other matches are silently dropped. -/
def extractGo (table : List Char) :
    Option (List (List Char)) → List (List Char) → List (List (List Char × List Char))
  | _, [] => []
  | colsOpt, l :: rest =>
    if substrOf "INSERT INTO".data (toUpperLine l) ∧ substrOf table l then
      let step := fun (acc : Option (List (List Char)) × List (List (List Char × List Char)))
          (m : List Char × List Char) =>
        let cols := acc.1.getD (parseColumns m.1)
        let vals := parseValues m.2
        if vals.length = cols.length then (some cols, acc.2 ++ [cols.zip vals])
        else (some cols, acc.2)
      let r := (findAllInsert table (l.length + 1) l).foldl step (colsOpt, [])
      r.2 ++ extractGo table r.1 rest
    else extractGo table colsOpt rest

/-- `_extract_table_data` over the dump's lines: the list of extracted rows. -/
def extractRows (table : List Char) (lines : List (List Char)) :
    List (List (List Char × List Char)) :=
  extractGo table none lines

/-! ## Splitter: `_split_dump` (lines 586-618) -/

/-- One step of the splitting loop: when `line_count % lines_per_file == 0`
a new part is started, else the line is appended to the current part.
Parts are kept most-recent-first; the counter is the second component. -/
def splitStep (n : Nat) (acc : List (List (List Char)) × Nat) (l : List Char) :
    List (List (List Char)) × Nat :=
  if acc.2 % n = 0 then ([l] :: acc.1, acc.2 + 1)
  else
    match acc.1 with
    | p :: ps => ((p ++ [l]) :: ps, acc.2 + 1)
    | [] => ([[l]], acc.2 + 1)

/-- `_split_dump`: the contents (as line lists) of the produced part files,
in creation order.  `n` is `args.lines_per_file` (`n = 0` raises
`ZeroDivisionError` in the source and is excluded by hypothesis). -/
def splitParts (n : Nat) (lines : List (List Char)) : List (List (List Char)) :=
  ((lines.foldl (splitStep n) ([], 0)).1).reverse

/-- Python text-mode line iteration (`for line in file`): split after each
newline, keeping the terminator; accumulator-based. -/
def splitKeepGo : List Char → List Char → List (List Char)
  | acc, [] => if acc.isEmpty then [] else [acc.reverse]
  | acc, c :: rest =>
    if c = '\n' then (acc.reverse ++ ['\n']) :: splitKeepGo [] rest
    else splitKeepGo (c :: acc) rest

/-- The lines (terminators kept) of a file's text. -/
def splitKeep (s : List Char) : List (List Char) :=
  splitKeepGo [] s

/-! ## Temp-file lifecycle: `run` (lines 49-78), `_decompress_if_needed`
(lines 620-632), `_cleanup_temp_file` (lines 634-639) -/

/-- Python `file.endswith('.gz')` on a path modelled as a character list. -/
def endsWithGz (file : List Char) : Bool :=
  (".gz".data.reverse).isPrefixOf file.reverse

/-- `_decompress_if_needed` path computation: `.gz` inputs are decompressed
to the name without the suffix (`args.file[:-3]`), others are used in place. -/
def decompressPath (file : List Char) : List Char :=
  if endsWithGz file then file.take (file.length - 3) else file

/-- `_cleanup_temp_file`: remove `path` only when it differs from the
original input and exists. -/
def cleanupTemp (origFile path : List Char) (fs : List (List Char)) : List (List Char) :=
  if path ≠ origFile ∧ path ∈ fs then fs.erase path else fs

/-- File-set effect of one `run` invocation in any of the five modes, with the
mode body abstracted to whether it raises (`bodyFails`).  Decompression first
writes the temp file; each mode calls `_cleanup_temp_file` as its final
action, so a body failure propagates to `run`'s handler (which only logs and
exits) without any cleanup. -/
def runFiles (file : List Char) (bodyFails : Bool) (fs0 : List (List Char)) :
    List (List Char) :=
  let path := decompressPath file
  let fs1 := if endsWithGz file then (if path ∈ fs0 then fs0 else fs0 ++ [path]) else fs0
  if bodyFails then fs1 else cleanupTemp file path fs1

/-! ## Concrete fixtures used by the counterexamples -/

/-- A two-line INSERT statement whose first line carries a terminator inside a
single-quoted string that closes before the end of that line. -/
def c1lines : List (List Char) :=
  ["INSERT INTO t VALUES (".data ++ [qc] ++ "a;b".data ++ [qc] ++ "),".data,
   "(".data ++ [qc, 'c', qc] ++ ");".data]

/-- A line with cleaned content after its first terminator. -/
def c2line : List Char := "DELETE FROM a; DROP TABLE b;".data

/-- A fixture whose single INSERT statement has its keyword phrase split
across two physical lines. -/
def c3lines : List (List Char) := ["INSERT".data, "INTO a VALUES (1);".data]

/-- The INSERT statement of claim C4, with the trailing newline of text-mode
line iteration. -/
def c4line : List Char :=
  "INSERT INTO t (a,b) VALUES (1,".data ++ [qc] ++ "x,y".data ++ [qc] ++ "), (2,".data
    ++ [qc, 'z', qc] ++ ");".data ++ ['\n']

/-- The two rows claim C4 says the Extractor produces. -/
def c4claimedRows : List (List (List Char × List Char)) :=
  [[("a".data, "1".data), ("b".data, "x,y".data)],
   [("a".data, "2".data), ("b".data, "z".data)]]

/-- A line whose only terminator character sits inside a quoted string that
closes before the end of the line; the line carries no real terminator. -/
def c5line : List Char := "SELECT ".data ++ [qc] ++ "a;b".data ++ [qc]

/-- Execution oracle for the restore scenario of claim C7: every statement
succeeds except the second one. -/
def failSecond (s : List Char) : Bool := if s = "S2;".data then false else true

/-- The three-statement dump of claim C7. -/
def c7lines : List (List Char) := ["S1;".data, "S2;".data, "S3;".data]

/-- The fixture of claim C8: `users` declared and referenced, `orders`
referenced but never declared, `logs` declared but never referenced. -/
def c8lines : List (List Char) :=
  ["CREATE TABLE users (id INT);".data, "CREATE TABLE logs (id INT);".data,
   "INSERT INTO users VALUES (1);".data, "INSERT INTO orders VALUES (1);".data]

/-- A dump whose single INSERT statement for `orders` has its keyword phrase
split across two physical lines; no CREATE TABLE statement anywhere. -/
def c8aLines : List (List Char) := ["INSERT".data, "INTO orders VALUES (1);".data]

/-- A dump consisting of one `--` comment line that merely mentions
`INSERT INTO phantom`; it contains no statement at all. -/
def c8bLines : List (List Char) := ["-- INSERT INTO phantom VALUES (1);".data]

/-! ## Spec-side predicates used by the amended claims -/

/-- A character that triggers no branch of the scanner's default state:
not a quote/backtick, not a dash, not a slash. -/
def plainChar (c : Char) : Prop :=
  c ≠ qc ∧ c ≠ '"' ∧ c ≠ btick ∧ c ≠ '-' ∧ c ≠ '/'

instance : DecidablePred plainChar := fun c => by
  unfold plainChar
  infer_instance

/-- A line the analyzer does not skip: non-blank and not starting with `--`
after uppercasing and stripping. -/
def analyzableLine (l : List Char) : Bool :=
  !((pyStrip (toUpperLine l)).isEmpty || isCommentStart (pyStrip (toUpperLine l)))

/-- A line the analyzer counts as a CREATE TABLE line. -/
def isCreateLine (l : List Char) : Bool :=
  analyzableLine l && substrOf "CREATE TABLE".data (pyStrip (toUpperLine l))

/-- A line the analyzer counts as an INSERT line (the `elif` excludes lines
already counted as CREATE TABLE). -/
def isInsertLine (l : List Char) : Bool :=
  analyzableLine l && !substrOf "CREATE TABLE".data (pyStrip (toUpperLine l))
    && substrOf "INSERT INTO".data (pyStrip (toUpperLine l))

/-- The table name a counted line contributes to the per-table statistics. -/
def lineName (l : List Char) : Option (List Char) :=
  if isCreateLine l || isInsertLine l then extractTableName l else none

/-- The table name a raw line contributes to the validator's declared set:
the line's uppercased text contains `CREATE TABLE` (no strip, no comment
skip) and `extract_table_name` finds a name on the raw line. -/
def valCreateName (l : List Char) : Option (List Char) :=
  if substrOf "CREATE TABLE".data (toUpperLine l) then extractTableName l else none

/-- The table name a raw line contributes to the validator's referenced set:
the line does not contain `CREATE TABLE`, contains `INSERT INTO`, and
`extract_table_name` finds a name. -/
def valInsertName (l : List Char) : Option (List Char) :=
  if substrOf "CREATE TABLE".data (toUpperLine l) then none
  else if substrOf "INSERT INTO".data (toUpperLine l) then extractTableName l else none

/-! ## Claim theorems -/

/-- Claim C1, counterexample: the two-line statement `c1lines` contains its
terminator character only inside a quoted string, yet the assembly loop of
`_restore_to_db` emits TWO statements (the emission test `';' in content`
fires on the first line because the string has already closed by the end of
that line), splitting the statement — not the single statement the claim
requires. -/
theorem c1_split_counterexample :
    assemble c1lines =
      ["INSERT INTO t VALUES (".data ++ [qc] ++ "a;b".data ++ [qc] ++ "),".data,
       "(".data ++ [qc, 'c', qc] ++ ");".data] ∧
    (assemble c1lines).length = 2 := by decide

/-- Claim C2, counterexample: for the line `DELETE FROM a; DROP TABLE b;` the
assembler emits the ENTIRE buffer as one statement — the cleaned content after
the first terminator is included in the emitted statement and the next buffer
starts empty, rather than the up-to-terminator prefix being emitted and the
remainder carried over. -/
theorem c2_tail_counterexample :
    assemble [c2line] = [c2line] ∧ c2line ≠ "DELETE FROM a;".data := by decide

/-- Claim C3, counterexample: `c3lines` contains exactly one INSERT statement
(as assembled by the repository's own statement assembler) over one table
name, but the analyzer — which classifies physical lines, not statements —
finishes with its insert counter at 0 and an empty table map. -/
theorem c3_perline_counterexample :
    assemble c3lines = ["INSERT INTO a VALUES (1);".data] ∧
    (analyzeLines c3lines).insertCount = 0 ∧
    (analyzeLines c3lines).tables = [] := by decide

/-- Claim C4, counterexample: on
`INSERT INTO t (a,b) VALUES (1,'x,y'), (2,'z');` the Extractor for table `t`
does not produce the two claimed rows (it produces none). -/
theorem c4_rows_counterexample :
    extractRows "t".data [c4line] ≠ c4claimedRows := by decide

/-- Claim C4, amended: the regex captures the whole multi-tuple VALUES text as
one group (stopping before the final `);`), `parse_values` flattens it into
the four values `(1`, `x,y)`, `(2`, `z` — the comma inside the quoted `x,y`
correctly does not split a value, but tuple boundaries are not recognised
either — and since 4 values do not match the 2 columns the row-arity guard
silently drops everything: the Extractor emits exactly zero rows. -/
theorem c4_amended_zero_rows :
    findAllInsert "t".data (c4line.length + 1) c4line =
      [("a,b".data,
        "(1,".data ++ [qc] ++ "x,y".data ++ [qc] ++ "), (2,".data ++ [qc, 'z', qc])] ∧
    parseColumns "a,b".data = ["a".data, "b".data] ∧
    parseValues ("(1,".data ++ [qc] ++ "x,y".data ++ [qc] ++ "), (2,".data ++ [qc, 'z', qc])
      = ["(1".data, "x,y)".data, "(2".data, "z".data] ∧
    extractRows "t".data [c4line] = [] := by decide

/-- Claim C5, counterexample: scanning `SELECT 'a;b'` (no real terminator)
leaves the state outside any string, the cleaned content keeps the mid-string
`;`, and the assembly loop therefore matches that in-string character as a
statement terminator and emits a statement — refuting the conclusion that no
character inside a string region is ever matched as a terminator. -/
theorem c5_instring_terminator_counterexample :
    (processLine initScan c5line).2.inString = none ∧
    (processLine initScan c5line).1.contains ';' = true ∧
    assemble [c5line] = [c5line] := by decide

/-- Characters scanned in comment state are discarded until the two-character
close marker, which returns the scanner to the default state. -/
lemma scan_comment_skip (tail : List Char) :
    ∀ mid : List Char, '*' ∉ mid →
      scanChars ⟨none, true, false⟩ (mid ++ '*' :: '/' :: tail) = scanChars initScan tail := by
  intro mid
  induction mid with
  | nil => intro _; simp [scanChars, initScan]
  | cons m ms ih =>
    intro h
    have hm : m ≠ '*' := fun hc => h (hc ▸ List.mem_cons_self m ms)
    have hms : '*' ∉ ms := fun hc => h (List.mem_cons_of_mem m hc)
    cases ms with
    | nil => simpa [scanChars, hm] using ih (by simp)
    | cons m2 ms2 => simpa [scanChars, hm] using ih hms

/-- An unclosed comment swallows the rest of the line, contributing nothing
to the cleaned output and leaving the comment state on. -/
lemma scan_comment_stay :
    ∀ mid : List Char, '*' ∉ mid →
      scanChars ⟨none, true, false⟩ mid = ([], ⟨none, true, false⟩) := by
  intro mid
  induction mid with
  | nil => intro _; simp [scanChars]
  | cons m ms ih =>
    intro h
    have hm : m ≠ '*' := fun hc => h (hc ▸ List.mem_cons_self m ms)
    have hms : '*' ∉ ms := fun hc => h (List.mem_cons_of_mem m hc)
    cases ms with
    | nil => simp [scanChars, hm]
    | cons m2 ms2 => simpa [scanChars, hm] using ih hms

/-- One scanner pass preserves the mutual exclusion of the string and
comment regions (stated with a length-bounded induction). -/
lemma excl_preserved : ∀ (n : Nat) (l : List Char) (st : ScanState), l.length ≤ n →
    (st.inComment = true → st.inString = none) →
    ((scanChars st l).2.inComment = true → (scanChars st l).2.inString = none) := by
  intro n
  induction n with
  | zero =>
    intro l st hl h
    have : l = [] := List.length_eq_zero.mp (Nat.le_zero.mp hl)
    subst this
    simpa [scanChars] using h
  | succ n ih =>
    intro l st hl h
    cases l with
    | nil => simpa [scanChars] using h
    | cons c rest =>
      simp only [List.length_cons, Nat.succ_le_succ_iff] at hl
      obtain ⟨is, ic, es⟩ := st
      cases es with
      | true =>
        simp only [scanChars]
        exact ih rest ⟨is, ic, false⟩ hl (by simpa using h)
      | false =>
        cases is with
        | some q =>
          have hic : ic = false := by
            cases ic with
            | false => rfl
            | true => simpa using h rfl
          subst hic
          by_cases hb : c = '\\'
          · simp only [scanChars, if_pos hb]
            exact ih rest ⟨some q, false, true⟩ hl (by simp)
          · by_cases hq2 : c = q
            · simp only [scanChars, if_neg hb, if_pos hq2]
              exact ih rest ⟨none, false, false⟩ hl (fun _ => rfl)
            · simp only [scanChars, if_neg hb, if_neg hq2]
              exact ih rest ⟨some q, false, false⟩ hl (by simp)
        | none =>
          cases ic with
          | true =>
            cases rest with
            | nil => simp [scanChars]
            | cons r1 rest2 =>
              by_cases hcc : c = '*' ∧ r1 = '/'
              · simp only [scanChars, if_pos hcc]
                exact ih rest2 ⟨none, false, false⟩
                  (Nat.le_of_succ_le (by simpa using hl)) (fun _ => rfl)
              · simp only [scanChars, if_neg hcc]
                exact ih (r1 :: rest2) ⟨none, true, false⟩ hl (fun _ => rfl)
          | false =>
            cases rest with
            | nil =>
              by_cases hq : c = qc ∨ c = '"' ∨ c = btick
              · simp [scanChars, hq]
              · simp [scanChars, hq]
            | cons r1 rest2 =>
              by_cases h1 : c = '-' ∧ r1 = '-'
              · simp [scanChars, h1]
              · by_cases h2 : c = '/' ∧ r1 = '*'
                · simp only [scanChars, if_neg h1, if_pos h2]
                  exact ih rest2 ⟨none, true, false⟩
                    (Nat.le_of_succ_le (by simpa using hl)) (fun _ => rfl)
                · by_cases hq : c = qc ∨ c = '"' ∨ c = btick
                  · simp only [scanChars, if_neg h1, if_neg h2, if_pos hq]
                    exact ih (r1 :: rest2) ⟨some c, false, false⟩ hl (by simp)
                  · simp only [scanChars, if_neg h1, if_neg h2, if_neg hq]
                    exact ih (r1 :: rest2) ⟨none, false, false⟩ hl (fun _ => rfl)

/-- Claim C5, amended: one Scanner step preserves the mutual exclusion of
`insideString` and `insideBlockComment` (so no state reachable from the
initial state — which satisfies the invariant — ever has both set), and a set
`pendingEscape` consumes the next character verbatim, clearing the flag
before that character could be interpreted as a delimiter, comment marker or
terminator candidate.  (The claim's further conclusion that no in-string
character is ever matched as a statement terminator is refuted separately:
see the counterexample.) -/
theorem c5_amended_scan_invariants :
    (∀ (l : List Char) (st : ScanState), (st.inComment = true → st.inString = none) →
      ((scanChars st l).2.inComment = true → (scanChars st l).2.inString = none)) ∧
    (∀ (st : ScanState) (c : Char) (rest : List Char), st.escapeNext = true →
      scanChars st (c :: rest) =
        (c :: (scanChars ⟨st.inString, st.inComment, false⟩ rest).1,
          (scanChars ⟨st.inString, st.inComment, false⟩ rest).2)) ∧
    (initScan.inComment = true → initScan.inString = none) := by
  refine ⟨fun l st h => excl_preserved l.length l st le_rfl h, ?_, fun _ => rfl⟩
  intro st c rest he
  obtain ⟨is, ic, es⟩ := st
  cases es with
  | false => exact absurd he (by simp)
  | true => simp [scanChars]

/-- Witness for the amended C5: concrete applications of both conjuncts, with
the escape step consuming a terminator character verbatim inside a string. -/
theorem c5_amended_scan_invariants_witness :
    ((⟨some qc, false, true⟩ : ScanState).escapeNext = true) ∧
    scanChars ⟨some qc, false, true⟩ (';' :: " end".data) =
      (';' :: (scanChars ⟨some qc, false, false⟩ " end".data).1,
        (scanChars ⟨some qc, false, false⟩ " end".data).2) ∧
    ((scanChars ⟨some qc, false, true⟩ "abc".data).2.inComment = true →
      (scanChars ⟨some qc, false, true⟩ "abc".data).2.inString = none) :=
  ⟨rfl, c5_amended_scan_invariants.2.1 ⟨some qc, false, true⟩ ';' " end".data rfl,
    c5_amended_scan_invariants.1 "abc".data ⟨some qc, false, true⟩ (by decide)⟩

/-- Claim C6: a block comment opened at the start of a line and containing a
quote character contributes nothing to the cleaned output and does not open a
string region: scanning the commented span followed by a tail behaves exactly
like scanning the tail alone, and an unclosed such comment yields empty
cleaned content with the state in-comment and NOT in-string. -/
theorem c6_block_comment_quote (mid tail : List Char)
    (hstar : '*' ∉ mid) (hq : qc ∈ mid) :
    scanChars initScan ('/' :: '*' :: (mid ++ '*' :: '/' :: tail)) = scanChars initScan tail ∧
    scanChars initScan ('/' :: '*' :: mid) = ([], ⟨none, true, false⟩) := by
  constructor
  · have h1 : scanChars initScan ('/' :: '*' :: (mid ++ '*' :: '/' :: tail))
        = scanChars ⟨none, true, false⟩ (mid ++ '*' :: '/' :: tail) := by
      simp [scanChars, initScan]
    rw [h1, scan_comment_skip tail mid hstar]
  · have h1 : scanChars initScan ('/' :: '*' :: mid)
        = scanChars ⟨none, true, false⟩ mid := by
      simp [scanChars, initScan]
    rw [h1, scan_comment_stay mid hstar]

/-- Witness for C6: the comment text is `don't` (quote included), followed by
`SELECT 1;`. -/
theorem c6_block_comment_quote_witness :
    ('*' ∉ (['d', 'o', 'n', qc, 't'] : List Char) ∧
      qc ∈ (['d', 'o', 'n', qc, 't'] : List Char)) ∧
    (scanChars initScan
        ('/' :: '*' :: (['d', 'o', 'n', qc, 't'] ++ '*' :: '/' :: " SELECT 1;".data))
        = scanChars initScan " SELECT 1;".data ∧
      scanChars initScan ('/' :: '*' :: ['d', 'o', 'n', qc, 't'])
        = ([], ⟨none, true, false⟩)) :=
  ⟨⟨by decide, by decide⟩, c6_block_comment_quote _ _ (by decide) (by decide)⟩

/-- Claim C7: restoring the three-statement dump `c7lines` with an execution
oracle that fails exactly on the second statement: with skip-errors disabled
the run aborts as a failure having attempted 2 and executed exactly 1
statement; with skip-errors enabled it completes normally having attempted
all 3 statements with 2 successes. -/
theorem c7_restore_error_policy :
    (failSecond "S1;".data = true ∧ failSecond "S2;".data = false ∧
      failSecond "S3;".data = true) ∧
    assemble c7lines = ["S1;".data, "S2;".data, "S3;".data] ∧
    restoreRun failSecond false c7lines = .error (2, 1) ∧
    restoreRun failSecond true c7lines = .ok (3, 2) := by decide

/-- Claim C10, counterexample: a run on the gzip-compressed input
`d.sql.gz` that terminates with an error never reaches
`_cleanup_temp_file`, so the decompressed temporary file `d.sql` still
exists when the run ends. -/
theorem c10_temp_survives_error_counterexample :
    runFiles "d.sql.gz".data true ["d.sql.gz".data]
      = ["d.sql.gz".data, "d.sql".data] ∧
    "d.sql".data ∈ runFiles "d.sql.gz".data true ["d.sql.gz".data] := by decide

/-- The splitting loop distributes the input lines over the parts without
loss or duplication, whatever the starting accumulator. -/
lemma split_fold_join (n : Nat) :
    ∀ (lines : List (List Char)) (parts : List (List (List Char))) (k : Nat),
      ((lines.foldl (splitStep n) (parts, k)).1).reverse.flatten = parts.reverse.flatten ++ lines := by
  intro lines
  induction lines with
  | nil => intro parts k; simp
  | cons l tl ih =>
    intro parts k
    simp only [List.foldl_cons]
    by_cases hk : k % n = 0
    · have : splitStep n (parts, k) l = ([l] :: parts, k + 1) := by simp [splitStep, hk]
      rw [this, ih]
      simp
    · cases parts with
      | nil =>
        have : splitStep n (([] : List (List (List Char))), k) l = ([[l]], k + 1) := by
          simp [splitStep, hk]
        rw [this, ih]
        simp
      | cons p ps =>
        have : splitStep n (p :: ps, k) l = ((p ++ [l]) :: ps, k + 1) := by
          simp [splitStep, hk]
        rw [this, ih]
        simp

/-- Flattening part contents equals flattening twice. -/
lemma flatten_map_flatten (P : List (List (List Char))) : (P.map List.flatten).flatten = P.flatten.flatten := by
  induction P with
  | nil => simp
  | cons p tl ih => simp [ih]

/-- Text-mode line splitting keeps every character. -/
lemma splitKeepGo_join : ∀ (s acc : List Char), (splitKeepGo acc s).flatten = acc.reverse ++ s := by
  intro s
  induction s with
  | nil => intro acc; by_cases h : acc.isEmpty <;> simp [splitKeepGo, h] <;>
      simp [List.isEmpty_iff] at h <;> simp [h]
  | cons c tl ih =>
    intro acc
    by_cases h : c = '\n'
    · simp [splitKeepGo, h, ih]
    · simpa [splitKeepGo, h] using ih (c :: acc)

/-- Claim C9: for any positive lines-per-file setting, concatenating the
Splitter's output part files in sequence order reproduces the original file's
text. -/
theorem c9_split_concat (n : Nat) (s : List Char) (hn : 0 < n) :
    ((splitParts n (splitKeep s)).map List.flatten).flatten = s := by
  rw [flatten_map_flatten]
  have h1 : (splitParts n (splitKeep s)).flatten = splitKeep s := by
    unfold splitParts
    simpa using split_fold_join n (splitKeep s) [] 0
  rw [h1]
  simpa using splitKeepGo_join s []

/-- Python set insertion keeps the modelled element list duplicate-free. -/
lemma addSet_nodup (s : List (List Char)) (k : List Char) (h : s.Nodup) :
    (addSet s k).Nodup := by
  unfold addSet
  split_ifs with hk
  · exact h
  · simp [List.nodup_append, h, hk]

/-- One validator line either leaves the two sets unchanged or inserts one
table name into exactly one of them. -/
lemma validateLine_shape (acc : List (List Char) × List (List Char)) (l : List Char) :
    validateLine acc l = acc ∨
    (∃ t, validateLine acc l = (addSet acc.1 t, acc.2)) ∨
    (∃ t, validateLine acc l = (acc.1, addSet acc.2 t)) := by
  simp only [validateLine]
  cases hx : extractTableName l <;> split_ifs <;> simp [hx]

/-- Both validator sets stay duplicate-free over the whole pass. -/
lemma validate_fold_nodup :
    ∀ (lines : List (List Char)) (acc : List (List Char) × List (List Char)),
      acc.1.Nodup → acc.2.Nodup →
      (lines.foldl validateLine acc).1.Nodup ∧ (lines.foldl validateLine acc).2.Nodup := by
  intro lines
  induction lines with
  | nil => intro acc h1 h2; exact ⟨h1, h2⟩
  | cons l tl ih =>
    intro acc h1 h2
    simp only [List.foldl_cons]
    rcases validateLine_shape acc l with h | ⟨t, h⟩ | ⟨t, h⟩ <;> rw [h]
    · exact ih acc h1 h2
    · exact ih _ (addSet_nodup _ _ h1) h2
    · exact ih _ h1 (addSet_nodup _ _ h2)

/-- Prepending a fixed message prefix is injective for counting purposes. -/
lemma count_map_prefixed (p : List Char) (l : List (List Char)) (t : List Char) :
    (l.map fun s => p ++ s).count (p ++ t) = l.count t := by
  induction l with
  | nil => rfl
  | cons a tl ih => simp [List.count_cons, ih, List.append_right_inj]

/-- Counting in a filtered duplicate-free list yields an indicator. -/
lemma count_filter_nodup (c : List (List Char)) (t : List Char) :
    ∀ r : List (List Char), r.Nodup →
      (r.filter fun x => decide (x ∉ c)).count t = if t ∈ r ∧ t ∉ c then 1 else 0 := by
  intro r
  induction r with
  | nil => simp
  | cons a tl ih =>
    intro hnd
    rw [List.nodup_cons] at hnd
    rw [List.filter_cons]
    by_cases hac : a ∈ c
    · rw [if_neg (by simp [hac])]
      rw [ih hnd.2]
      by_cases hta : t = a
      · subst hta
        simp [List.mem_cons, hac, hnd.1]
      · simp [List.mem_cons, hta]
    · rw [if_pos (by simp [hac])]
      rw [List.count_cons]
      rw [ih hnd.2]
      by_cases hta : t = a
      · subst hta
        simp [List.mem_cons, hac, hnd.1]
      · have hat : ¬ a = t := fun h => hta h.symm
        simp [List.mem_cons, hta, hat]

/-- One validator line inserts into the declared set exactly the name given
by `valCreateName` and into the referenced set exactly the name given by
`valInsertName`. -/
lemma validateLine_names (acc : List (List Char) × List (List Char)) (l : List Char) :
    validateLine acc l =
      ((match valCreateName l with
        | some t => addSet acc.1 t
        | none => acc.1),
       (match valInsertName l with
        | some t => addSet acc.2 t
        | none => acc.2)) := by
  by_cases hC : substrOf "CREATE TABLE".data (toUpperLine l) = true
  · cases hx : extractTableName l <;>
      simp [validateLine, valCreateName, valInsertName, hC, hx]
  · by_cases hI : substrOf "INSERT INTO".data (toUpperLine l) = true
    · cases hx : extractTableName l <;>
        simp [validateLine, valCreateName, valInsertName, hC, hI, hx]
    · simp [validateLine, valCreateName, valInsertName, hC, hI]

/-- The validator's two sets are exactly the per-line extracted names,
deduplicated in first-seen order, over any starting accumulator. -/
lemma validate_fold_names :
    ∀ (lines : List (List Char)) (acc : List (List Char) × List (List Char)),
      (lines.foldl validateLine acc).1 = (lines.filterMap valCreateName).foldl addSet acc.1 ∧
      (lines.foldl validateLine acc).2 = (lines.filterMap valInsertName).foldl addSet acc.2 := by
  intro lines
  induction lines with
  | nil => intro acc; exact ⟨rfl, rfl⟩
  | cons l tl ih =>
    intro acc
    simp only [List.foldl_cons, List.filterMap_cons]
    rw [validateLine_names acc l]
    refine ⟨?_, ?_⟩
    · rw [(ih _).1]
      cases hx : valCreateName l
      · simp [hx]
      · simp [hx]
    · rw [(ih _).2]
      cases hy : valInsertName l
      · simp [hy]
      · simp [hy]

/-- Claim C8, counterexample: the issue set is NOT the statement-level
referenced-but-undeclared tables.  On `c8aLines` the dump contains (by the
repository's own statement assembler) exactly one INSERT statement, naming
`orders`, and no statement containing CREATE TABLE, yet the validator — which
tests raw physical lines — reports no issue at all.  Conversely `c8bLines`
contains no statement whatsoever, only a `--` comment line mentioning
`INSERT INTO phantom`, yet the validator reports a missing-table issue naming
`phantom`. -/
theorem c8_statement_level_counterexample :
    assemble c8aLines = ["INSERT INTO orders VALUES (1);".data] ∧
    extractTableName "INSERT INTO orders VALUES (1);".data = some "orders".data ∧
    (assemble c8aLines).countP (fun s => substrOf "CREATE TABLE".data (toUpperLine s)) = 0 ∧
    validateErrors c8aLines = [] ∧
    assemble c8bLines = [] ∧
    validateErrors c8bLines = ["Missing CREATE TABLE for: phantom".data] := by decide

/-- Claim C8, amended: the Validator's issues are exactly the
referenced-but-undeclared tables in its PER-LINE sense: for every table `t`,
the issue list contains exactly one `Missing CREATE TABLE for: t` entry when
`t` is among the names contributed by raw lines containing `INSERT INTO`
(per `valInsertName`) but not among the names contributed by lines containing
`CREATE TABLE` (per `valCreateName`), and none otherwise — in particular no
declared-but-unreferenced table is ever reported; on the `c8lines` fixture
exactly one issue is reported, naming `orders`.  (The statement-level claim
fails; see the counterexample.) -/
theorem c8_amended_per_line_validator :
    (∀ (lines : List (List Char)) (t : List Char),
      (validateErrors lines).count ("Missing CREATE TABLE for: ".data ++ t) =
        if t ∈ (lines.filterMap valInsertName).foldl addSet [] ∧
            t ∉ (lines.filterMap valCreateName).foldl addSet []
        then 1 else 0) ∧
    validateErrors c8lines = ["Missing CREATE TABLE for: orders".data] := by
  constructor
  · intro lines t
    have hnd : (validateSets lines).2.Nodup :=
      (validate_fold_nodup lines ([], []) (by simp) (by simp)).2
    have h1 : (validateSets lines).1 = (lines.filterMap valCreateName).foldl addSet [] :=
      (validate_fold_names lines ([], [])).1
    have h2 : (validateSets lines).2 = (lines.filterMap valInsertName).foldl addSet [] :=
      (validate_fold_names lines ([], [])).2
    simp only [validateErrors, missingTables]
    rw [count_map_prefixed]
    rw [count_filter_nodup _ t _ hnd]
    rw [h1, h2]
  · decide

/-- Witness for C9 at three lines and two lines per part. -/
theorem c9_split_concat_witness :
    0 < 2 ∧ ((splitParts 2 (splitKeep "a\nbb\nc\n".data)).map List.flatten).flatten
      = "a\nbb\nc\n".data :=
  ⟨by decide, c9_split_concat 2 _ (by decide)⟩

/-- Characters that trigger no scanner branch pass through the default state
unchanged. -/
lemma scan_plain (tail : List Char) :
    ∀ a : List Char, (∀ c ∈ a, plainChar c) →
      scanChars initScan (a ++ tail) =
        (a ++ (scanChars initScan tail).1, (scanChars initScan tail).2) := by
  intro a
  induction a with
  | nil => intro _; simp
  | cons c cs ih =>
    intro h
    obtain ⟨hq, hd, hb, hm, hs⟩ := h c (List.mem_cons_self c cs)
    have hcs : ∀ x ∈ cs, plainChar x := fun x hx => h x (List.mem_cons_of_mem c hx)
    have hnq : ¬(c = qc ∨ c = '"' ∨ c = btick) := by
      rintro (h | h | h) <;> [exact hq h; exact hd h; exact hb h]
    simp only [List.cons_append]
    cases hct : cs ++ tail with
    | nil =>
      obtain ⟨hcs0, ht0⟩ := List.append_eq_nil.mp hct
      subst hcs0; subst ht0
      simp [scanChars, initScan, hnq]
    | cons r1 rest2 =>
      have h1 : ¬(c = '-' ∧ r1 = '-') := fun hc => hm hc.1
      have h2 : ¬(c = '/' ∧ r1 = '*') := fun hc => hs hc.1
      simp only [initScan, scanChars, if_neg h1, if_neg h2, if_neg hnq]
      rw [← hct]
      have := ih hcs
      rw [initScan] at this
      rw [this]

/-- Inside a single-quoted string, unescaped non-delimiter characters (and in
particular terminator characters) are appended verbatim until the closing
quote returns the scanner to the default state. -/
lemma scan_in_string (tail2 : List Char) :
    ∀ mid : List Char, (∀ c ∈ mid, c ≠ qc ∧ c ≠ '\\') →
      scanChars ⟨some qc, false, false⟩ (mid ++ qc :: tail2) =
        (mid ++ qc :: (scanChars initScan tail2).1, (scanChars initScan tail2).2) := by
  intro mid
  induction mid with
  | nil =>
    intro _
    have hq : ¬(qc = '\\') := by decide
    simp only [List.nil_append, scanChars, if_neg hq, if_pos rfl]
    simp [initScan]
  | cons m ms ih =>
    intro h
    obtain ⟨hm1, hm2⟩ := h m (List.mem_cons_self m ms)
    have hms : ∀ x ∈ ms, x ≠ qc ∧ x ≠ '\\' := fun x hx => h x (List.mem_cons_of_mem m hx)
    simp only [List.cons_append, scanChars, if_neg hm2, if_neg hm1, List.append_eq]
    rw [ih hms]

/-- Scanning an opening quote, a string body and the closing quote from the
default state appends all of it to the cleaned output and continues in the
default state. -/
lemma scan_quoted_string (mid tail2 : List Char) (hmid : ∀ c ∈ mid, c ≠ qc ∧ c ≠ '\\') :
    scanChars initScan (qc :: (mid ++ qc :: tail2)) =
      (qc :: (mid ++ qc :: (scanChars initScan tail2).1), (scanChars initScan tail2).2) := by
  have e1 : ¬(qc = '-') := by decide
  have e2 : ¬(qc = '/') := by decide
  have e3 : ¬(qc = '\\') := by decide
  cases mid with
  | nil =>
    simp [scanChars, initScan, e1, e2, e3]
  | cons m ms =>
    obtain ⟨hm1, hm2⟩ := hmid m (List.mem_cons_self m ms)
    have hms : ∀ x ∈ ms, x ≠ qc ∧ x ≠ '\\' := fun x hx => hmid x (List.mem_cons_of_mem m hx)
    have h1 : ¬(qc = '-' ∧ m = '-') := fun hc => e1 hc.1
    have h2 : ¬(qc = '/' ∧ m = '*') := fun hc => e2 hc.1
    simp only [List.cons_append, scanChars, initScan, if_neg h1, if_neg h2,
      if_pos (Or.inl rfl : qc = qc ∨ qc = '"' ∨ qc = btick), if_neg hm2, if_neg hm1,
      List.append_eq]
    rw [scan_in_string tail2 ms hms]
    simp [initScan]

/-- `dropWhile` drops only characters satisfying the predicate. -/
lemma mem_dropWhile_of_not (p : Char → Bool) (c : Char) (hc : p c = false) :
    ∀ l : List Char, c ∈ l → c ∈ l.dropWhile p := by
  intro l
  induction l with
  | nil => intro h; simp at h
  | cons a tl ih =>
    intro h
    by_cases hpa : p a = true
    · rcases List.mem_cons.mp h with h | h
      · subst h; rw [hpa] at hc; simp at hc
      · rw [List.dropWhile_cons, if_pos hpa]
        exact ih h
    · rw [List.dropWhile_cons, if_neg hpa]
      exact h

/-- `dropWhile` returns a sub-collection of its input. -/
lemma mem_of_mem_dropWhile (p : Char → Bool) (c : Char) :
    ∀ l : List Char, c ∈ l.dropWhile p → c ∈ l := by
  intro l
  induction l with
  | nil => intro h; simp at h
  | cons a tl ih =>
    intro h
    rw [List.dropWhile_cons] at h
    by_cases hpa : p a = true
    · rw [if_pos hpa] at h
      exact List.mem_cons_of_mem a (ih h)
    · rw [if_neg hpa] at h
      exact h

/-- The head of a `dropWhile` result fails the predicate. -/
lemma dropWhile_head_false (p : Char → Bool) :
    ∀ (l : List Char) (c : Char) (t : List Char), l.dropWhile p = c :: t → p c = false := by
  intro l
  induction l with
  | nil => intro c t h; simp at h
  | cons a tl ih =>
    intro c t h
    rw [List.dropWhile_cons] at h
    by_cases hpa : p a = true
    · rw [if_pos hpa] at h
      exact ih c t h
    · rw [if_neg hpa] at h
      obtain ⟨h1, _⟩ := List.cons.inj h
      subst h1
      simpa using hpa

/-- Stripping removes only whitespace characters. -/
lemma mem_pyStrip (c : Char) (hc : pyIsSpace c = false) (l : List Char) (h : c ∈ l) :
    c ∈ pyStrip l := by
  unfold pyStrip
  rw [List.mem_reverse]
  exact mem_dropWhile_of_not _ c hc _ (List.mem_reverse.mpr (mem_dropWhile_of_not _ c hc l h))

/-- `rstrip` keeps a line ending in a non-space character intact. -/
lemma pyRstrip_append_nonspace (x : List Char) (c : Char) (hc : pyIsSpace c = false) :
    pyRstrip (x ++ [c]) = x ++ [c] := by
  unfold pyRstrip
  rw [List.reverse_append]
  simp [List.dropWhile_cons, hc]

/-- `rstrip` swallows one trailing space. -/
lemma pyRstrip_append_space (x : List Char) : pyRstrip (x ++ [' ']) = pyRstrip x := by
  unfold pyRstrip
  rw [List.reverse_append]
  simp [List.dropWhile_cons, show pyIsSpace ' ' = true from by decide]

/-- `rstrip` keeps a non-space head character. -/
lemma rstrip_cons_nonspace (c : Char) (hc : pyIsSpace c = false) (t : List Char) :
    pyRstrip (c :: t) = c :: pyRstrip t := by
  unfold pyRstrip
  rw [show (c :: t).reverse = t.reverse ++ [c] from by simp, List.dropWhile_append]
  by_cases h : (t.reverse.dropWhile pyIsSpace).isEmpty
  · rw [if_pos h]
    rw [List.isEmpty_iff] at h
    simp [List.dropWhile_cons, hc, h]
  · rw [if_neg h]
    simp

/-- `strip` ignores one trailing space. -/
lemma pyStrip_append_space (l : List Char) : pyStrip (l ++ [' ']) = pyStrip l := by
  have hdef : ∀ m : List Char, pyStrip m = pyRstrip (m.dropWhile pyIsSpace) := fun m => rfl
  rw [hdef, hdef, List.dropWhile_append]
  by_cases h : ((l.dropWhile pyIsSpace).isEmpty)
  · rw [if_pos h]
    rw [List.isEmpty_iff] at h
    rw [h]
    simp [List.dropWhile_cons, show pyIsSpace ' ' = true from by decide, pyRstrip]
  · rw [if_neg h]
    exact pyRstrip_append_space _

/-- A buffer whose first character is not a dash does not start a line
comment. -/
lemma isCommentStart_cons_ne (c : Char) (h : ¬ c = '-') :
    ∀ t : List Char, isCommentStart (c :: t) = false := by
  intro t
  cases t with
  | nil => rfl
  | cons c2 t2 => simp [isCommentStart, h]

/-- Membership gives a positive `contains` test. -/
lemma contains_of_mem (c : Char) : ∀ l : List Char, c ∈ l → l.contains c = true := by
  intro l
  induction l with
  | nil => intro h; simp at h
  | cons a tl ih =>
    intro h
    rcases List.mem_cons.mp h with h | h
    · subst h; simp [List.contains_cons]
    · rw [List.contains_cons, ih h]
      simp

/-- Claim C1, amended: when the statement lies on a SINGLE physical line -
plain text, then a single-quoted string whose body contains the terminator
character, then plain text and the closing terminator - the assembly loop
emits exactly one Statement: the whole stripped line, which still contains
the mid-string terminator.  (For statements spanning several physical lines
the original claim fails; see the counterexample.) -/
theorem c1_amended_single_line (a mid b : List Char)
    (ha : ∀ c ∈ a, plainChar c) (hb : ∀ c ∈ b, plainChar c)
    (hmid : ∀ c ∈ mid, c ≠ qc ∧ c ≠ '\\') (hsemi : ';' ∈ mid) :
    assemble [a ++ qc :: (mid ++ qc :: (b ++ [';']))] =
      [pyStrip (a ++ qc :: (mid ++ qc :: (b ++ [';'])))] ∧
    ';' ∈ pyStrip (a ++ qc :: (mid ++ qc :: (b ++ [';']))) := by
  set L := a ++ qc :: (mid ++ qc :: (b ++ [';'])) with hL
  have hsemicolon : (';' : Char) ∈ L := by
    rw [hL]; simp [hsemi]
  have hscan : scanChars initScan L = (L, initScan) := by
    rw [hL]
    rw [scan_plain (qc :: (mid ++ qc :: (b ++ [';']))) a ha]
    rw [scan_quoted_string mid (b ++ [';']) hmid]
    rw [scan_plain [';'] b hb]
    rw [show scanChars initScan [';'] = ([';'], initScan) from by decide]
  have hrstrip : pyRstrip L = L := by
    have hform : L = (a ++ qc :: (mid ++ qc :: b)) ++ [';'] := by rw [hL]; simp
    rw [hform, pyRstrip_append_nonspace _ _ (by decide)]
  have hprocess : processLine initScan L = (L, initScan) := by
    rw [processLine, hrstrip, hscan]
  have hcontains : L.contains ';' = true := contains_of_mem ';' L hsemicolon
  have hmem_strip : (';' : Char) ∈ pyStrip L := mem_pyStrip ';' (by decide) L hsemicolon
  have hne : (pyStrip L).isEmpty = false := by
    cases hx : pyStrip L with
    | nil => rw [hx] at hmem_strip; simp at hmem_strip
    | cons x xs => rfl
  have hcs : isCommentStart (pyStrip L) = false := by
    have hL2 : pyStrip L = pyRstrip (L.dropWhile pyIsSpace) := rfl
    rw [hL2, hL, List.dropWhile_append]
    by_cases hae : ((a.dropWhile pyIsSpace).isEmpty)
    · rw [if_pos hae, List.dropWhile_cons,
        if_neg (by rw [show pyIsSpace qc = false from by decide]; simp)]
      rw [rstrip_cons_nonspace qc (by decide)]
      exact isCommentStart_cons_ne qc (by decide) _
    · rw [if_neg hae]
      cases hd : a.dropWhile pyIsSpace with
      | nil => rw [hd] at hae; simp at hae
      | cons c0 t0 =>
        simp only [List.cons_append]
        have hc0sp : pyIsSpace c0 = false := dropWhile_head_false _ a c0 t0 hd
        have hc0a : c0 ∈ a := mem_of_mem_dropWhile _ c0 a (hd ▸ List.mem_cons_self c0 t0)
        have hc0d : c0 ≠ '-' := (ha c0 hc0a).2.2.2.1
        rw [rstrip_cons_nonspace c0 hc0sp]
        exact isCommentStart_cons_ne c0 hc0d _
  refine ⟨?_, hmem_strip⟩
  show assembleGo initScan [] [L] = [pyStrip L]
  simp only [assembleGo]
  rw [hprocess]
  rw [if_pos ⟨hcontains, rfl⟩]
  simp only [emitOf, List.nil_append]
  rw [pyStrip_append_space L]
  rw [if_neg (by rw [hne, hcs]; simp)]
  rw [show pyStrip ([] : List Char) = [] from rfl]
  simp

/-- Bumping a table counter inserts the key at the end if absent and leaves
the key list unchanged otherwise. -/
lemma bumpTable_keys (k : List Char) :
    ∀ m : List (List Char × Nat), (bumpTable m k).map Prod.fst = addSet (m.map Prod.fst) k := by
  intro m
  induction m with
  | nil => simp [bumpTable, addSet]
  | cons a tl ih =>
    obtain ⟨k0, v⟩ := a
    by_cases h : k0 = k
    · subst h
      simp [bumpTable, addSet, List.mem_cons]
    · have h' : ¬ k = k0 := fun hc => h hc.symm
      simp only [bumpTable, if_neg h, List.map_cons, ih, addSet, List.mem_cons, h', false_or]
      by_cases hm : k ∈ tl.map Prod.fst
      · simp [hm]
      · simp [hm]

/-- Effect of one analyzer line on the counters and the table-key list. -/
lemma analyzeLine_effect (st : AnalyzeStats) (l : List Char) :
    (analyzeLine st l).createTable = st.createTable + (if isCreateLine l then 1 else 0) ∧
    (analyzeLine st l).insertCount = st.insertCount + (if isInsertLine l then 1 else 0) ∧
    (analyzeLine st l).tables.map Prod.fst =
      (match lineName l with
       | some t => addSet (st.tables.map Prod.fst) t
       | none => st.tables.map Prod.fst) := by
  by_cases hA : (pyStrip (toUpperLine l)).isEmpty ∨ isCommentStart (pyStrip (toUpperLine l))
  · have h1 : analyzableLine l = false := by
      rcases hA with h | h
      · simp [analyzableLine, h]
      · simp [analyzableLine, h]
    have h2 : analyzeLine st l = st := by
      simp only [analyzeLine]
      rw [if_pos hA]
    simp [h2, isCreateLine, isInsertLine, lineName, h1]
  · obtain ⟨ha1, ha2⟩ := not_or.mp hA
    have hb1 : (pyStrip (toUpperLine l)).isEmpty = false := by simpa using ha1
    have hb2 : isCommentStart (pyStrip (toUpperLine l)) = false := by simpa using ha2
    have h1 : analyzableLine l = true := by simp [analyzableLine, hb1, hb2]
    by_cases hC : substrOf "CREATE TABLE".data (pyStrip (toUpperLine l)) = true
    · have hcl : isCreateLine l = true := by simp [isCreateLine, h1, hC]
      have hil : isInsertLine l = false := by simp [isInsertLine, hC]
      have hln : lineName l = extractTableName l := by simp [lineName, hcl]
      simp only [analyzeLine]
      rw [if_neg hA, if_pos hC]
      cases hx : extractTableName l <;>
        simp [hx, hcl, hil, hln, bumpTable_keys]
    · have hCb : substrOf "CREATE TABLE".data (pyStrip (toUpperLine l)) = false := by
        simpa using hC
      have hcl : isCreateLine l = false := by simp [isCreateLine, hCb]
      by_cases hI : substrOf "INSERT INTO".data (pyStrip (toUpperLine l)) = true
      · have hil : isInsertLine l = true := by simp [isInsertLine, h1, hCb, hI]
        have hln : lineName l = extractTableName l := by simp [lineName, hil]
        simp only [analyzeLine]
        rw [if_neg hA, if_neg hC, if_pos hI]
        cases hx : extractTableName l <;>
          simp [hx, hcl, hil, hln, bumpTable_keys]
      · have hIb : substrOf "INSERT INTO".data (pyStrip (toUpperLine l)) = false := by
          simpa using hI
        have hil : isInsertLine l = false := by simp [isInsertLine, hIb]
        have hln : lineName l = none := by simp [lineName, hcl, hil]
        simp only [analyzeLine]
        rw [if_neg hA, if_neg hC, if_neg hI]
        by_cases hAl : substrOf "ALTER TABLE".data (pyStrip (toUpperLine l)) = true
        · rw [if_pos hAl]; simp [hcl, hil, hln]
        · rw [if_neg hAl]
          by_cases hD : substrOf "DROP TABLE".data (pyStrip (toUpperLine l)) = true
          · rw [if_pos hD]; simp [hcl, hil, hln]
          · rw [if_neg hD]; simp [hcl, hil, hln]

/-- The analyzer's counters accumulate per-line counts over any starting
statistics. -/
lemma analyze_fold :
    ∀ (lines : List (List Char)) (st : AnalyzeStats),
      (lines.foldl analyzeLine st).createTable = st.createTable + lines.countP isCreateLine ∧
      (lines.foldl analyzeLine st).insertCount = st.insertCount + lines.countP isInsertLine ∧
      (lines.foldl analyzeLine st).tables.map Prod.fst =
        (lines.filterMap lineName).foldl addSet (st.tables.map Prod.fst) := by
  intro lines
  induction lines with
  | nil => intro st; simp
  | cons l tl ih =>
    intro st
    simp only [List.foldl_cons, List.countP_cons, List.filterMap_cons]
    obtain ⟨e1, e2, e3⟩ := analyzeLine_effect st l
    refine ⟨?_, ?_, ?_⟩
    · rw [(ih (analyzeLine st l)).1, e1]
      by_cases h : isCreateLine l = true
      · simp [h]; omega
      · simp [h]
    · rw [(ih (analyzeLine st l)).2.1, e2]
      by_cases h : isInsertLine l = true
      · simp [h]; omega
      · simp [h]
    · rw [(ih (analyzeLine st l)).2.2, e3]
      cases hx : lineName l
      · simp
      · simp

/-- Claim C3, amended: the Analyzer counts physical lines, not statements:
its create_table counter equals the number of lines counted as CREATE TABLE
lines, its insert counter the number of lines counted as INSERT lines, and
its table map holds exactly the distinct table names extracted from those
lines, in first-seen order.  (The claimed statement-level counts fail when a
statement's keyword spans lines; see the counterexample.) -/
theorem c3_amended_per_line_analysis (lines : List (List Char)) :
    (analyzeLines lines).createTable = lines.countP isCreateLine ∧
    (analyzeLines lines).insertCount = lines.countP isInsertLine ∧
    (analyzeLines lines).tables.map Prod.fst = (lines.filterMap lineName).foldl addSet [] := by
  have h := analyze_fold lines initStats
  simpa [analyzeLines, initStats] using h

/-- A path with the `.gz` suffix has at least three characters. -/
lemma gz_length (file : List Char) (h : endsWithGz file = true) : 3 ≤ file.length := by
  unfold endsWithGz at h
  rw [← List.length_reverse]
  generalize file.reverse = r at h
  match r with
  | [] => simp [List.isPrefixOf] at h
  | [a] => simp [List.isPrefixOf] at h
  | [a, b] => simp [List.isPrefixOf] at h
  | a :: b :: c :: tl => simp only [List.length_cons]; omega

/-- Decompression of a `.gz` path yields a different (shorter) path. -/
lemma gz_path_ne (file : List Char) (h : endsWithGz file = true) :
    decompressPath file ≠ file := by
  intro heq
  have h3 := gz_length file h
  have := congrArg List.length heq
  rw [decompressPath, if_pos h] at this
  simp [List.length_take] at this
  omega

/-- Removing a freshly appended path restores the original file set. -/
lemma erase_append_last (path : List Char) :
    ∀ fs : List (List Char), path ∉ fs → (fs ++ [path]).erase path = fs := by
  intro fs
  induction fs with
  | nil => intro _; simp
  | cons a tl ih =>
    intro h
    have hne : ¬ a = path := fun hc => h (by simp [hc])
    have h2 : path ∉ tl := fun hc => h (List.mem_cons_of_mem _ hc)
    simp [List.erase_cons, hne, ih h2]

/-- Removing one path keeps every other path. -/
lemma mem_erase_ne (x path : List Char) (hne : x ≠ path) :
    ∀ fs : List (List Char), x ∈ fs → x ∈ fs.erase path := by
  intro fs
  induction fs with
  | nil => intro h; simp at h
  | cons a tl ih =>
    intro hm
    by_cases ha : a = path
    · subst ha
      rcases List.mem_cons.mp hm with h | h
      · exact absurd h hne
      · simpa [List.erase_cons] using h
    · rcases List.mem_cons.mp hm with h | h
      · simp [List.erase_cons, ha, h]
      · simp [List.erase_cons, ha, ih h]

/-- Unfolding of a successful run's file-set effect. -/
lemma runFiles_false_eq (file : List Char) (fs0 : List (List Char)) :
    runFiles file false fs0 = cleanupTemp file (decompressPath file)
      (if endsWithGz file = true then
        (if decompressPath file ∈ fs0 then fs0 else fs0 ++ [decompressPath file])
       else fs0) := rfl

/-- Unfolding of a failed run's file-set effect. -/
lemma runFiles_true_eq (file : List Char) (fs0 : List (List Char)) :
    runFiles file true fs0 =
      (if endsWithGz file = true then
        (if decompressPath file ∈ fs0 then fs0 else fs0 ++ [decompressPath file])
       else fs0) := rfl

/-- Claim C10, amended: for a fresh `.gz` input the decompressed temporary
file is gone at the end of a run that completes normally, but survives a run
that terminates with an error (the claim's error half fails; see the
counterexample); the input file itself is never deleted, compressed or not. -/
theorem c10_amended_temp_lifecycle (file : List Char) (fs0 : List (List Char)) :
    (endsWithGz file = true → decompressPath file ∉ fs0 →
      runFiles file false fs0 = fs0 ∧
      runFiles file true fs0 = fs0 ++ [decompressPath file]) ∧
    (endsWithGz file = false → ∀ b, runFiles file b fs0 = fs0) ∧
    (∀ b, file ∈ fs0 → file ∈ runFiles file b fs0) := by
  refine ⟨?_, ?_, ?_⟩
  · intro hgz hnot
    have hne := gz_path_ne file hgz
    constructor
    · rw [runFiles_false_eq, if_pos hgz, if_neg hnot]
      have hcond : decompressPath file ≠ file ∧
          decompressPath file ∈ fs0 ++ [decompressPath file] := ⟨hne, by simp⟩
      rw [cleanupTemp, if_pos hcond]
      exact erase_append_last _ fs0 hnot
    · rw [runFiles_true_eq, if_pos hgz, if_neg hnot]
  · intro hgz b
    cases b with
    | true =>
      rw [runFiles_true_eq, if_neg (by simp [hgz])]
    | false =>
      rw [runFiles_false_eq, if_neg (by simp [hgz])]
      have hp : decompressPath file = file := by
        rw [decompressPath, if_neg (by simp [hgz])]
      rw [cleanupTemp, hp, if_neg (fun hc => hc.1 rfl)]
  · intro b hmem
    cases b with
    | true =>
      rw [runFiles_true_eq]
      split_ifs <;> simp [hmem]
    | false =>
      rw [runFiles_false_eq]
      have hm1 : file ∈ (if endsWithGz file = true then
          (if decompressPath file ∈ fs0 then fs0 else fs0 ++ [decompressPath file])
         else fs0) := by
        split_ifs <;> simp [hmem]
      generalize hg : (if endsWithGz file = true then
          (if decompressPath file ∈ fs0 then fs0 else fs0 ++ [decompressPath file])
         else fs0) = fs1 at hm1 ⊢
      rw [cleanupTemp]
      split_ifs with h
      · exact mem_erase_ne file _ (fun hc => h.1 hc.symm) _ hm1
      · exact hm1

/-- Claim C2, amended: when a line's cleaned output contains a terminator and
the post-line state is not inside a string, the assembler emits the ENTIRE
accumulated buffer (stripped) - including any content after the terminator -
as one Statement via the emission guard, and the next buffer starts empty;
trailing content is not carried over. -/
theorem c2_amended_whole_buffer (st : ScanState) (buf l : List Char) (rest : List (List Char))
    (h1 : (processLine st l).1.contains ';' = true)
    (h2 : (processLine st l).2.inString = none) :
    assembleGo st buf (l :: rest) =
      emitOf (buf ++ (processLine st l).1 ++ [' ']) ++
        assembleGo (processLine st l).2 [] rest := by
  simp only [assembleGo]
  rw [if_pos ⟨h1, h2⟩]

/-- Witness for the amended C2 on the line `A; B` followed by `C;`. -/
theorem c2_amended_whole_buffer_witness :
    ((processLine initScan "A; B".data).1.contains ';' = true ∧
      (processLine initScan "A; B".data).2.inString = none) ∧
    assembleGo initScan [] ("A; B".data :: ["C;".data]) =
      emitOf ([] ++ (processLine initScan "A; B".data).1 ++ [' ']) ++
        assembleGo (processLine initScan "A; B".data).2 [] ["C;".data] :=
  ⟨⟨by decide, by decide⟩,
    c2_amended_whole_buffer initScan [] "A; B".data ["C;".data] (by decide) (by decide)⟩

/-- Witness for the amended C1: the statement
`INSERT INTO t VALUES ('a;b');` on one line. -/
theorem c1_amended_single_line_witness :
    ((∀ c ∈ "INSERT INTO t VALUES (".data, plainChar c) ∧
      (∀ c ∈ ")".data, plainChar c) ∧
      (∀ c ∈ "a;b".data, c ≠ qc ∧ c ≠ '\\') ∧ ';' ∈ "a;b".data) ∧
    (assemble
        ["INSERT INTO t VALUES (".data ++ qc :: ("a;b".data ++ qc :: (")".data ++ [';']))] =
        [pyStrip
          ("INSERT INTO t VALUES (".data ++ qc :: ("a;b".data ++ qc :: (")".data ++ [';'])))] ∧
      ';' ∈ pyStrip
        ("INSERT INTO t VALUES (".data ++ qc :: ("a;b".data ++ qc :: (")".data ++ [';'])))) :=
  ⟨⟨by decide, by decide, by decide, by decide⟩,
    c1_amended_single_line _ _ _ (by decide) (by decide) (by decide) (by decide)⟩

/-- Witness for the amended C10 on the input `d.sql.gz`. -/
theorem c10_amended_temp_lifecycle_witness :
    (endsWithGz "d.sql.gz".data = true ∧
      decompressPath "d.sql.gz".data ∉ ["d.sql.gz".data]) ∧
    (runFiles "d.sql.gz".data false ["d.sql.gz".data] = ["d.sql.gz".data] ∧
      runFiles "d.sql.gz".data true ["d.sql.gz".data]
        = ["d.sql.gz".data] ++ [decompressPath "d.sql.gz".data]) :=
  ⟨⟨by decide, by decide⟩,
    (c10_amended_temp_lifecycle "d.sql.gz".data ["d.sql.gz".data]).1 (by decide) (by decide)⟩
